import Mathlib

/-!
Verification development for the balda-go game server.

The definitions below are a shallow embedding of the Go sources:

* `square.go` (package `server`): the gaming area (`Square`), the recursive
  path search `findFull`, the move validator `CheckWord`, `IsFull` and the
  textual renderers.
* `game.go` (package `game`) and its sibling variant of the same file found
  in the repository: the turn state machine (`Game`, `Continue`, `skip`,
  `put`, `coordX`, `coordY`, `letter`, `word`).

Machine integers are embedded as `Nat`/`Int` (the Go program only ever
stores non-negative values in the fields embedded as `Nat`); Go `rune` is
`Char`; Go strings are `String` or `List Char` (`[]rune`).  Functions whose
Go originals can panic (index out of range, division by zero, failed type
assertion) return `Option`, with `none` standing for the panic.  The
dictionary and the database are external collaborators and enter as
parameters.
-/

namespace Balda

/-- A gaming grid: `Square.matrix`, a list of rows of runes. -/
abbrev Grid := List (List Char)

/-- Read the cell `m[x][y]`.  In Go an out-of-range access panics; every
call site below first validates the coordinates (or the `findFull` guard
does), so the out-of-range default `'!'` is never observable from
`CheckWord`; `'!'` is chosen because it is the visited-cell marker, which
never matches a letter of a marker-free word. -/
def cellD (m : Grid) (x y : Int) : Char :=
  if 0 ≤ x ∧ 0 ≤ y then (m.getD x.toNat []).getD y.toNat '!' else '!'

/-- Write `c` at `m[x][y]` (functional update; Go mutates the matrix in
place).  All call sites are in range. -/
def setCell (m : Grid) (x y : Nat) (c : Char) : Grid :=
  m.set x ((m.getD x []).set y c)

/-- Lower-casing of a single rune, modelling Go `strings.ToLower` on the
alphabets this game uses (ASCII Latin and Russian Cyrillic). -/
def runeToLower (c : Char) : Char :=
  if 'A' ≤ c ∧ c ≤ 'Z' then Char.ofNat (c.toNat + 32)
  else if 'А' ≤ c ∧ c ≤ 'Я' then Char.ofNat (c.toNat + 32)
  else if c = 'Ё' then 'ё'
  else c

/-- Bitwise and-not on `Nat` (the bits of `n` not set in `m`), written
with subtraction so that it evaluates in the kernel. -/
def ldiffN (n m : Nat) : Nat := n - (n &&& m)

/-- Bitwise or of Go `int` in two-complement reading, in the constructor
representation of `Int` (`-[m+1]` has the bit pattern of `NOT m`, so
`x | y` follows the standard identities; for `x, y ≥ -1`, the only values
`findFull` feeds it, `intLor x y = -1` exactly when `x = -1` or
`y = -1`). -/
def intLor (a b : Int) : Int :=
  match a, b with
  | .ofNat m, .ofNat n => .ofNat (m ||| n)
  | .ofNat m, .negSucc n => .negSucc (ldiffN n m)
  | .negSucc m, .ofNat n => .negSucc (ldiffN m n)
  | .negSucc m, .negSucc n => .negSucc (m &&& n)

/-- The `Square` from `square.go`: the matrix of runes and the used words. -/
structure Square where
  matrix : Grid
  usedWords : List String
deriving DecidableEq, Repr

/-- The `findFull` from `square.go`: the recursive path search.  The receiver
matrix `m` is the working copy of the caller (cells already on the current path
are overwritten with `'!'`); `findX, findY` is the cell the path must
visit, `(x, y)` the cell being tried, `checker` records whether the path
already visited `(findX, findY)`.  The Go guard is kept verbatim,
including the bitwise `(x|y) == -1` test for a negative coordinate.
`word = []` never occurs (Go would panic reading `word[0]`; all callers
pass non-empty words). -/
def findFull (m : Grid) (findX findY x y : Int) (word : List Char) (checker : Bool) : Nat :=
  match word with
  | [] => 0
  | w0 :: rest =>
    if x = (m.length : Int) ∨ y = (m.length : Int) ∨ intLor x y = -1 ∨ cellD m x y ≠ w0 then 0
    else
      let m2 := setCell m x.toNat y.toNat '!'
      let checker2 := checker || (findY == y && findX == x)
      if rest.isEmpty then (if checker2 then 1 else 0)
      else
        findFull m2 findX findY x (y - 1) rest checker2 +
        findFull m2 findX findY x (y + 1) rest checker2 +
        findFull m2 findX findY (x - 1) y rest checker2 +
        findFull m2 findX findY (x + 1) y rest checker2

/-- The `Square.wordAlreadyUsed` from `square.go`. -/
def wordAlreadyUsed (area : Square) (word : List Char) : Bool :=
  area.usedWords.contains (String.mk word)

/-- The `Square.CheckWord` from `square.go`.  `dict` is the loaded dictionary
(external collaborator `dict.CheckWord` is membership in it).  Returns
`none` for the panic Go hits when an empty word passes all three
rejection checks (reading `word[0]`); callers with a real dictionary
never hit it. -/
def CheckWord (dict : List String) (area : Square) (x y : Nat) (symbol : Char)
    (word : List Char) : Option (Bool × Square) :=
  let w := word.map runeToLower
  if wordAlreadyUsed area w = true ∨ cellD area.matrix x y ≠ '-' ∨
      ¬ dict.contains (String.mk w) = true then
    some (false, area)
  else
    match w with
    | [] => none
    | w0 :: rest =>
      let temp := setCell area.matrix x y symbol
      if (List.range area.matrix.length).any (fun i =>
          (List.range ((area.matrix.getD i []).length)).any (fun j =>
            cellD temp i j == w0 &&
              findFull temp x y i j (w0 :: rest) false != 0)) then
        some (true, ⟨temp, area.usedWords ++ [String.mk w]⟩)
      else
        some (false, area)

/-- The `Square.IsFull` from `square.go`. -/
def IsFull (area : Square) : Bool :=
  area.matrix.all (fun row => row.all (fun c => c != '-'))

/-- The `Square.StrPrintArea` from `square.go`. -/
def StrPrintArea (m : Grid) : String :=
  let header := (List.range m.length).foldl
    (fun s j => s ++ toString j ++ " ") "  "
  (List.range m.length).foldl
    (fun s i =>
      let row := m.getD i []
      let cells := (List.range row.length).foldl
        (fun t j =>
          let t := t ++ String.mk [row.getD j '-']
          if j ≠ row.length - 1 then t ++ " " else t) ""
      s ++ "\n" ++ toString i ++ "[" ++ cells ++ "]") header

/-- The `Square.StrPrintUsedWords` from `square.go`. -/
def StrPrintUsedWords (area : Square) : String :=
  String.intercalate "\n" area.usedWords

/-- The `Put` from `game.go`: the pending sub-state of a `put` move.  `x` and
`y` are only ever assigned values validated into `[0, AreaSize)`, hence
`Nat`. -/
structure Put where
  state : String
  x : Nat
  y : Nat
  sym : Char
  word : String
deriving DecidableEq, Repr

/-- The `Game` from `game.go`.  The Go `map[string]int` score map is embedded
as an association list in insertion order (Go map iteration order is
unspecified; every property proved below is order-independent).  The
sibling variant of `game.go` in the repository names `step` `stepUser`
and `score` `scoreMap`; both variants share this state record.  The
database handle and the function-valued dispatch tables carry no state
and are not part of the record. -/
structure Game where
  square : Square
  users : List String
  score : List (String × Nat)
  step : Nat
  onStart : Bool
  skipped : Nat
  putting : Put
  onPut : Bool
  AreaSize : Nat
deriving DecidableEq, Repr

/-- Look up a key in the score map, with the Go zero value for a missing
key. -/
def mapGet (m : List (String × Nat)) (k : String) : Nat :=
  ((m.find? (fun p => p.1 == k)).map Prod.snd).getD 0

/-- The `m[k] += v` on the score map: update the first binding of `k`, or
insert one (missing keys read as 0 in Go). -/
def mapAdd (m : List (String × Nat)) (k : String) (v : Nat) : List (String × Nat) :=
  match m with
  | [] => [(k, v)]
  | (k0, v0) :: rest =>
    if k0 == k then (k0, v0 + v) :: rest else (k0, v0) :: mapAdd rest k v

/-- The `strconv.Atoi`, for the small inputs this program feeds it: an
optional sign followed by one or more decimal digits; `none` is the Go
error return. -/
def atoi (s : String) : Option Int :=
  let digits : List Char → Option Nat := fun l =>
    if l = [] then none
    else l.foldl (fun acc c =>
      match acc with
      | none => none
      | some n => if c.isDigit then some (n * 10 + (c.toNat - 48)) else none) (some 0)
  match s.data with
  | '+' :: rest => (digits rest).map (fun n => (n : Int))
  | '-' :: rest => (digits rest).map (fun n => -(n : Int))
  | l => (digits l).map (fun n => (n : Int))

/-- The `strings.Split(str, " ")`. -/
def splitSpace (s : String) : List String :=
  let rec go : List Char → List Char → List String
    | [], acc => [String.mk acc.reverse]
    | ' ' :: rest, acc => String.mk acc.reverse :: go rest []
    | c :: rest, acc => go rest (c :: acc)
  go s.data []

/-- The `Game.whoStep` from `game.go`. -/
def whoStep (g : Game) : String :=
  if g.step < g.users.length then g.users.getD g.step "" else ""

/-- The `Game.showScore` from `game.go`: the score lines joined with a
newline, with the trailing newline trimmed. -/
def showScore (score : List (String × Nat)) : String :=
  let str := score.foldl (fun s p => s ++ p.1 ++ " : " ++ toString p.2 ++ "\n") ""
  if str.endsWith "\n" then str.dropRight 1 else str

/-- The `score` method of the sibling `game.go` variant: same lines joined
with `"\n\r"`. -/
def showScoreNR (score : List (String × Nat)) : String :=
  let str := score.foldl (fun s p => s ++ p.1 ++ " : " ++ toString p.2 ++ "\n\r") ""
  if str.endsWith "\n\r" then str.dropRight 2 else str

/-- One iteration of the winner loop of `Game.word`: a strictly larger
score takes the holder, then an equal score clears it.  Both `if`s of the
source are kept as written (no `else` between them). -/
def winnerStep (acc : Nat × String) (p : String × Nat) : Nat × String :=
  let acc1 := if p.2 > acc.1 then (p.2, p.1) else acc
  if p.2 = acc1.1 then (acc1.1, "") else acc1

/-- The winner loop of `Game.word`: fold `winnerStep` over the scores
starting from running maximum 0 and empty holder. -/
def winnerCalc (score : List (String × Nat)) : String :=
  (score.foldl winnerStep (0, "")).2

/-- The `Game.FinishGame`: clears `onStart`; the winner and the scores go to
the database (external collaborator). -/
def FinishGame (g : Game) : Game :=
  { g with onStart := false }

/-- The `Game.skip` from `game.go` (all variants of the file agree on this
function verbatim). -/
def Game.skip (g : Game) : (Bool × String) × Game :=
  let g := { g with skipped := g.skipped + 1 }
  if g.skipped = g.users.length then
    ((false, "Game over. No winner. All users skipped."), FinishGame g)
  else
    let step := g.step + 1
    let step := if step = g.users.length then 0 else step
    ((true, "You skipped"), { g with step := step })

/-- The `Game.put` from `game.go` (package `game`). -/
def Game.put (g : Game) : String × Game :=
  ("Please, enter X coordinate",
    { g with onPut := true, putting := { g.putting with state := "coordX" } })

/-- The `Game.coordX` from `game.go`. -/
def Game.coordX (g : Game) (str : String) : (Bool × String) × Game :=
  match atoi str with
  | none => ((true, "Invalid. Try again."), g)
  | some i =>
    if i < 0 ∨ (g.AreaSize : Int) ≤ i then ((true, "Invalid. Try again."), g)
    else ((true, "Please, enter Y coordinate"),
      { g with putting := { g.putting with x := i.toNat, state := "coordY" } })

/-- The `Game.coordY` from `game.go`. -/
def Game.coordY (g : Game) (str : String) : (Bool × String) × Game :=
  match atoi str with
  | none => ((true, "Invalid. Try again."), g)
  | some i =>
    if i < 0 ∨ (g.AreaSize : Int) ≤ i then ((true, "Invalid. Try again."), g)
    else ((true, "Please, enter rune"),
      { g with putting := { g.putting with y := i.toNat, state := "letter" } })

/-- The `Game.letter` from `game.go`. -/
def Game.letter (g : Game) (str : String) : (Bool × String) × Game :=
  if str.data.length ≠ 1 then ((true, "Invalid. Try again."), g)
  else ((true, "Please, enter word"),
    { g with putting := { g.putting with sym := str.data.getD 0 ' ', state := "word" } })

/-- The `Game.word` from `game.go` (package `game`).  On an accepted word the
source advances `game.step` first and only then credits
`game.users[game.step]`.  `db.AddWord` is the external storage
collaborator, modelled as succeeding.  `none` is the panic `CheckWord`
can raise. -/
def Game.word (dict : List String) (g : Game) (str : String) :
    Option ((Bool × String) × Game) :=
  let g := { g with putting := { g.putting with word := str }, onPut := false }
  match CheckWord dict g.square g.putting.y g.putting.x g.putting.sym str.data with
  | none => none
  | some (ok, sq) =>
    if ok then
      let g := { g with square := sq }
      let step := g.step + 1
      let step := if step = g.users.length then 0 else step
      let g := { g with step := step }
      let sc := str.data.length
      let nowPlayer := g.users.getD g.step ""
      let g := { g with score := mapAdd g.score nowPlayer sc }
      if IsFull g.square then
        let winner := winnerCalc g.score
        some ((false,
          String.intercalate "\n" ["Game over.", showScore g.score, "Our winner:", winner]),
          FinishGame g)
      else
        some ((true, String.intercalate "\n" ["Success", StrPrintArea g.square.matrix]), g)
    else
      some ((true, "You can\x27t add this word. Try again."), g)

/-- The `Game.Continue` from `game.go` (package `game`).  `none` models the
Go panics: the `game.step % len(game.users)` division by zero on an
empty roster, and the failed type assertion in the putting dispatch for
the `"word"` state (the stored handler returns three values, the
assertion expects two). -/
def Game.Continue (g : Game) (str user : String) :
    Option ((Bool × String) × Game) :=
  if g.onStart = false then some ((true, "Game didn't start"), g)
  else if str = "area" then some ((true, StrPrintArea g.square.matrix), g)
  else if str = "words" then some ((true, StrPrintUsedWords g.square), g)
  else if str = "step" then some ((true, whoStep g), g)
  else if str = "score" then some ((true, showScore g.score), g)
  else if g.users.length = 0 then none
  else
    let g := if g.users.length ≤ g.step then { g with step := g.step % g.users.length } else g
    if user ≠ g.users.getD g.step "" then
      some ((true, "Not your step is now or not correct command."), g)
    else if str = "skip" then some (Game.skip g)
    else if str = "put" then
      let (msg, g) := Game.put g
      some ((true, msg), g)
    else if g.onPut = true then
      match g.putting.state with
      | "coordX" => some (Game.coordX g str)
      | "coordY" => some (Game.coordY g str)
      | "letter" => some (Game.letter g str)
      | _ => none
    else
      some ((true, "Don\x27t understand you."), g)

/-- A concrete two-player mid-game state used to evaluate the move
functions: Cyrillic seed letter `а` at `(0,0)` on a 2×2 board, player
`"A"` (index 0) to move, a pending put targeting row 0, column 1 with
letter `б`, and one skip already on the counter. -/
def C4game : Game :=
  { square := ⟨[['а', '-'], ['-', '-']], []⟩
    users := ["A", "B"]
    score := [("A", 0), ("B", 0)]
    step := 0
    onStart := true
    skipped := 1
    putting := { state := "word", x := 1, y := 0, sym := 'б', word := "" }
    onPut := true
    AreaSize := 2 }

/-- The result of the accepted move of `C4game` (the word `аб`). -/
def C5res : (Bool × String) × Game :=
  (Game.word ["аб"] C4game "аб").getD ((true, ""), C4game)

/-- A concrete two-player in-progress state with no pending put: player
`"A"` (index 0) to move on a 2×2 board. -/
def C7g0 : Game :=
  { square := ⟨[['a', '-'], ['-', '-']], []⟩
    users := ["A", "B"]
    score := [("A", 0), ("B", 0)]
    step := 0
    onStart := true
    skipped := 0
    putting := { state := "", x := 0, y := 0, sym := ' ', word := "" }
    onPut := false
    AreaSize := 2 }

/-- The `C7g0` after player `"A"` sends `put`. -/
def C7g1 : Game := ((Game.Continue C7g0 "put" "A").getD ((true, ""), C7g0)).2

/-- The `C7g1` after player `"A"` sends `skip` (the turn passes to `"B"`). -/
def C7g2 : Game := ((Game.Continue C7g1 "skip" "A").getD ((true, ""), C7g1)).2

/-- The `C7g2` after player `"B"` sends `0` (advancing the pending put begun
by `"A"`). -/
def C7g3 : Game := ((Game.Continue C7g2 "0" "B").getD ((true, ""), C7g2)).2

/-- The reply state of `Game.Continue C7g0 "put" "B"` (an off-turn put). -/
def C7w : (Bool × String) × Game :=
  (Game.Continue C7g0 "put" "B").getD ((true, ""), C7g0)

/-- A started game with an empty roster, for the division-by-zero panic. -/
def C10game : Game := { C7g0 with users := [] }

/-- Two cells are orthogonal neighbours (the four moves `findFull`
tries). -/
def Adjacent (a b : Int × Int) : Prop :=
  (a.1 = b.1 ∧ (b.2 = a.2 - 1 ∨ b.2 = a.2 + 1)) ∨
  (a.2 = b.2 ∧ (b.1 = a.1 - 1 ∨ b.1 = a.1 + 1))

/-- The cell lies on an `n × n` grid. -/
def InGrid (n : Nat) (c : Int × Int) : Prop :=
  0 ≤ c.1 ∧ c.1 < (n : Int) ∧ 0 ≤ c.2 ∧ c.2 < (n : Int)

/-- The specification-side walk: `p` is a sequence of cells of the grid
`T`, one per character of `word`, whose letters spell `word`, moving only
between orthogonally adjacent cells and never revisiting a cell. -/
def SpellsWord (T : Grid) (word : List Char) (p : List (Int × Int)) : Prop :=
  List.Forall₂ (fun c l => cellD T c.1 c.2 = l) p word ∧
  List.Chain' Adjacent p ∧ p.Nodup ∧ ∀ c ∈ p, InGrid T.length c

/-- What one `findFull` attempt recognises, relative to the unmarked grid
`T` and the set `V` of cells already on the current path: a non-revisiting
walk for `word` starting at `(x, y)`, avoiding `V`, that visits
`(findX, findY)` unless `checker` is already set. -/
def FFSpec (T : Grid) (findX findY : Int) (V : List (Int × Int)) (ch : Bool)
    (x y : Int) (word : List Char) : Prop :=
  ∃ p : List (Int × Int),
    List.Forall₂ (fun c l => cellD T c.1 c.2 = l) p word ∧
    List.Chain' Adjacent p ∧ p.Nodup ∧
    (∀ c ∈ p, InGrid T.length c ∧ c ∉ V) ∧
    p.head? = some (x, y) ∧ (ch = true ∨ (findX, findY) ∈ p)

/-- Results of the read-only statistics queries, which live in the
database (external collaborator): each field maps the parsed arguments to
the formatted reply text (`db` success and `DATABASE_ERROR` replies
alike). -/
structure StatOracle where
  topusers : String → Int → Int → String
  topwords : Int → Int → String
  wordtopusers : String → Int → Int → String
  userstat : String → Int → Int → String

/-- The `help` reply of the sibling `game.go` variant: the field names of
its `methods` struct with their `description` tags, produced by
reflection in Go, joined with `"\n\r"` after a `"Game balda"` header. -/
def helpString : String :=
  String.intercalate "\n\r"
    ["Game balda",
     "area\tShows game area",
     "words\tShows used words",
     "step\tShows name of user who\x27s step is now",
     "score\tShows score of every user in game",
     "help\tHelp for you",
     "skip\tCommand to skip (if your step is now)",
     "put\tCommand to put letter and tell word (if your step is now)",
     "stat_topusers\tShows top of users. Parameters: mode(score, games, wins), limit",
     "stat_topwords\tShows top of words. Parameters: limit",
     "stat_wordtopusers\tShows top of users used this word. Parameters: word, limit",
     "stat_user\tShows top of users. Parameters: username, limit"]

/-- The `put` of the sibling `game.go` variant (different prompt text). -/
def P4.put (g : Game) : String × Game :=
  ("Entering X coordinate",
    { g with onPut := true, putting := { g.putting with state := "coordX" } })

/-- The `coordX` of the sibling `game.go` variant. -/
def P4.coordX (g : Game) (str : String) : (Bool × String) × Game :=
  match atoi str with
  | none => ((true, "Invalid. Try again."), g)
  | some i =>
    if i < 0 ∨ (g.AreaSize : Int) ≤ i then ((true, "Invalid. Try again."), g)
    else ((true, "Entering Y coordinate"),
      { g with putting := { g.putting with x := i.toNat, state := "coordY" } })

/-- The `coordY` of the sibling `game.go` variant. -/
def P4.coordY (g : Game) (str : String) : (Bool × String) × Game :=
  match atoi str with
  | none => ((true, "Invalid. Try again."), g)
  | some i =>
    if i < 0 ∨ (g.AreaSize : Int) ≤ i then ((true, "Invalid. Try again."), g)
    else ((true, "Entering rune"),
      { g with putting := { g.putting with y := i.toNat, state := "letter" } })

/-- The `letter` of the sibling `game.go` variant. -/
def P4.letter (g : Game) (str : String) : (Bool × String) × Game :=
  if str.data.length ≠ 1 then ((true, "Invalid. Try again."), g)
  else ((true, "Entering word"),
    { g with putting := { g.putting with sym := str.data.getD 0 ' ', state := "word" } })

/-- The `word` of the sibling `game.go` variant: credits
`game.users[game.stepUser]` (the still-current player) before advancing,
and advances the step only when the board is not yet full. -/
def P4.word (dict : List String) (g : Game) (str : String) :
    Option ((Bool × String) × Game) :=
  let g := { g with putting := { g.putting with word := str }, onPut := false }
  match CheckWord dict g.square g.putting.y g.putting.x g.putting.sym str.data with
  | none => none
  | some (ok, sq) =>
    if ok then
      let sc := str.data.length
      let nowPlayer := g.users.getD g.step ""
      let g := { g with square := sq, score := mapAdd g.score nowPlayer sc }
      if IsFull g.square then
        let winner := winnerCalc g.score
        some ((false,
          String.intercalate "\n\r" ["Game over.", showScoreNR g.score, "Our winner:", winner]),
          FinishGame g)
      else
        let step := g.step + 1
        let step := if step = g.users.length then 0 else step
        some ((true, String.intercalate "\n\r" ["Success", StrPrintArea g.square.matrix]),
          { g with step := step })
    else
      some ((true, "You can\x27t add this word. Try again."), g)

/-- The `Continue` of the sibling `game.go` variant: dispatches the
statistics queries before anything else, accepts `help` as an
informational command, and stores three-valued handlers in the putting
dispatch (so completing a `put` works in this variant).  `none` models
the Go panics: indexing a missing argument token, the empty-roster
modulo, and a nil dispatch entry. -/
def P4.Continue (stats : StatOracle) (dict : List String) (g : Game) (str user : String) :
    Option ((Bool × String) × Game) :=
  let arr := splitSpace str
  if arr.getD 0 "" = "stat_topusers" then
    match arr.get? 2 with
    | none => none
    | some a2 =>
      match atoi a2 with
      | none => some ((true, "Not correct command, not integer in limit"), g)
      | some n =>
        let mode := arr.getD 1 ""
        if mode ≠ "score" ∧ mode ≠ "games" ∧ mode ≠ "wins" then
          some ((true,
            "Not correct command, bad mode. You must use one of: score, games, wins."), g)
        else some ((true, stats.topusers mode n 0), g)
  else if arr.getD 0 "" = "stat_topwords" then
    match arr.get? 1 with
    | none => none
    | some a1 =>
      match atoi a1 with
      | none => some ((true, "Not correct command, not integer in limit"), g)
      | some n => some ((true, stats.topwords n 0), g)
  else if arr.getD 0 "" = "stat_wordtopusers" then
    match arr.get? 2 with
    | none => none
    | some a2 =>
      match atoi a2 with
      | none => some ((true, "Not correct command, not integer in limit"), g)
      | some n => some ((true, stats.wordtopusers (arr.getD 1 "") n 0), g)
  else if arr.getD 0 "" = "stat_user" then
    match arr.get? 2 with
    | none => none
    | some a2 =>
      match atoi a2 with
      | none => some ((true, "Not correct command, not integer in limit"), g)
      | some n => some ((true, stats.userstat (arr.getD 1 "") n 0), g)
  else if g.onStart = false then some ((true, "Game didn't start"), g)
  else if str = "area" then some ((true, StrPrintArea g.square.matrix), g)
  else if str = "words" then some ((true, StrPrintUsedWords g.square), g)
  else if str = "step" then some ((true, whoStep g), g)
  else if str = "score" then some ((true, showScoreNR g.score), g)
  else if str = "help" then some ((true, helpString), g)
  else if g.users.length = 0 then none
  else
    let g := if g.users.length ≤ g.step then { g with step := g.step % g.users.length } else g
    if user ≠ g.users.getD g.step "" then
      some ((true, "Not your step is now or not correct command."), g)
    else if str = "skip" then some (Game.skip g)
    else if str = "put" then
      let (msg, g) := P4.put g
      some ((true, msg), g)
    else if g.onPut = true then
      match g.putting.state with
      | "coordX" => some (P4.coordX g str)
      | "coordY" => some (P4.coordY g str)
      | "letter" => some (P4.letter g str)
      | "word" => P4.word dict g str
      | _ => none
    else
      some ((true, "Don\x27t understand you."), g)

/-- A constant statistics oracle for concrete evaluations. -/
def constOracle : StatOracle :=
  ⟨fun _ _ _ => "S1", fun _ _ => "S2", fun _ _ _ => "S3", fun _ _ _ => "S4"⟩

lemma cellD_of_not_nonneg {m : Grid} {a b : Int} (h : ¬ (0 ≤ a ∧ 0 ≤ b)) :
    cellD m a b = '!' := by
  simp only [cellD, if_neg h]

lemma getD_set_ne {α : Type _} {l : List α} {i j : Nat} (h : i ≠ j) (a : α) (d : α) :
    (l.set i a).getD j d = l.getD j d := by
  rw [List.getD_eq_getElem?_getD, List.getD_eq_getElem?_getD, List.getElem?_set_ne h]

lemma getD_set_self {α : Type _} {l : List α} {i : Nat} (h : i < l.length) (a : α) (d : α) :
    (l.set i a).getD i d = a := by
  have h' : i < (l.set i a).length := by rw [List.length_set]; exact h
  rw [List.getD_eq_getElem _ _ h']
  exact List.getElem_set_self h'

/-- A cell that does not read back the out-of-range default is in range
(for a square-shaped grid). -/
lemma cellD_ne_marker_bounds {m : Grid} (hsm : ∀ r ∈ m, r.length = m.length)
    {a b : Int} (h : cellD m a b ≠ '!') : InGrid m.length (a, b) := by
  by_cases hab : 0 ≤ a ∧ 0 ≤ b
  · obtain ⟨ha, hb⟩ := hab
    rw [cellD, if_pos ⟨ha, hb⟩] at h
    by_cases hx : a.toNat < m.length
    · have hrow : m.getD a.toNat [] = m[a.toNat] := List.getD_eq_getElem m [] hx
      rw [hrow] at h
      have hmem : m[a.toNat] ∈ m := List.getElem_mem hx
      have hlen : m[a.toNat].length = m.length := hsm _ hmem
      by_cases hy : b.toNat < m[a.toNat].length
      · exact ⟨ha, (Int.toNat_lt ha).mp hx, hb, (Int.toNat_lt hb).mp (hlen ▸ hy)⟩
      · exact absurd (List.getD_eq_default _ _ (Nat.le_of_not_lt hy)) h
    · rw [List.getD_eq_default m [] (Nat.le_of_not_lt hx)] at h
      simp at h
  · exact absurd (cellD_of_not_nonneg hab) h

lemma length_setCell (m : Grid) (x y : Nat) (c : Char) :
    (setCell m x y c).length = m.length := by
  simp [setCell]

lemma shape_setCell {m : Grid} (hsm : ∀ r ∈ m, r.length = m.length)
    (x y : Nat) (c : Char) :
    ∀ r ∈ setCell m x y c, r.length = (setCell m x y c).length := by
  intro r hr
  rw [length_setCell]
  by_cases hx : x < m.length
  · rcases List.mem_or_eq_of_mem_set hr with h | h
    · exact hsm r h
    · subst h
      rw [List.length_set, List.getD_eq_getElem m [] hx]
      exact hsm _ (List.getElem_mem hx)
  · rw [setCell, List.set_eq_of_length_le (Nat.le_of_not_lt hx)] at hr
    exact hsm r hr

lemma cellD_setCell_self {m : Grid} {x y : Nat} (hx : x < m.length)
    (hy : y < (m.getD x []).length) (c : Char) :
    cellD (setCell m x y c) x y = c := by
  have h0x : (0 : Int) ≤ (x : Int) := Int.natCast_nonneg x
  have h0y : (0 : Int) ≤ (y : Int) := Int.natCast_nonneg y
  rw [cellD, if_pos ⟨h0x, h0y⟩, Int.toNat_natCast, Int.toNat_natCast]
  have hx' : x < (setCell m x y c).length := by rwa [length_setCell]
  rw [List.getD_eq_getElem _ [] hx']
  have : (setCell m x y c)[x] = (m.getD x []).set y c := by
    simp only [setCell]
    exact List.getElem_set_self hx'
  rw [this]
  have hy' : y < ((m.getD x []).set y c).length := by rwa [List.length_set]
  rw [List.getD_eq_getElem _ '!' hy']
  exact List.getElem_set_self hy'

lemma cellD_setCell_ne {m : Grid} {x y : Nat} {a b : Int}
    (h : ¬ (a = (x : Int) ∧ b = (y : Int))) (c : Char) :
    cellD (setCell m x y c) a b = cellD m a b := by
  by_cases hab : 0 ≤ a ∧ 0 ≤ b
  · obtain ⟨ha, hb⟩ := hab
    rw [cellD, cellD, if_pos ⟨ha, hb⟩, if_pos ⟨ha, hb⟩]
    by_cases hax : a.toNat = x
    · have haeq : a = (x : Int) := by rw [← hax, Int.toNat_of_nonneg ha]
      have hby : b.toNat ≠ y := by
        intro hbeq
        exact h ⟨haeq, by rw [← hbeq, Int.toNat_of_nonneg hb]⟩
      by_cases hx : x < m.length
      · have hrow : (setCell m x y c).getD a.toNat [] = (m.getD x []).set y c := by
          rw [hax, setCell]
          exact getD_set_self hx _ _
        rw [hrow, hax, getD_set_ne (Ne.symm hby)]
      · have hrow : setCell m x y c = m := by
          rw [setCell, List.set_eq_of_length_le (Nat.le_of_not_lt hx)]
        rw [hrow]
    · have hrow : (setCell m x y c).getD a.toNat [] = m.getD a.toNat [] := by
        rw [setCell]
        exact getD_set_ne (Ne.symm hax) _ _
      rw [hrow]
  · rw [cellD_of_not_nonneg hab, cellD_of_not_nonneg hab]

lemma lor_ne_negOne {a b : Int} (ha : 0 ≤ a) (hb : 0 ≤ b) :
    intLor a b ≠ -1 := by
  obtain ⟨m, rfl⟩ := Int.eq_ofNat_of_zero_le ha
  obtain ⟨n, rfl⟩ := Int.eq_ofNat_of_zero_le hb
  intro h
  have h0 : (0 : Int) ≤ intLor (m : Int) (n : Int) := by
    show (0 : Int) ≤ intLor (Int.ofNat m) (Int.ofNat n)
    rw [show intLor (Int.ofNat m) (Int.ofNat n) = Int.ofNat (m ||| n) from rfl]
    exact Int.natCast_nonneg _
  omega

lemma adjacent_left (x y : Int) : Adjacent (x, y) (x, y - 1) := by
  simp [Adjacent]

lemma adjacent_right (x y : Int) : Adjacent (x, y) (x, y + 1) := by
  simp [Adjacent]

lemma adjacent_up (x y : Int) : Adjacent (x, y) (x - 1, y) := by
  simp [Adjacent]

lemma adjacent_down (x y : Int) : Adjacent (x, y) (x + 1, y) := by
  simp [Adjacent]

lemma adjacent_cases {x y : Int} {b : Int × Int} (h : Adjacent (x, y) b) :
    b = (x, y - 1) ∨ b = (x, y + 1) ∨ b = (x - 1, y) ∨ b = (x + 1, y) := by
  obtain ⟨b1, b2⟩ := b
  rcases h with ⟨h1, h2 | h2⟩ | ⟨h1, h2 | h2⟩ <;> simp_all [Prod.ext_iff]

/-- Unfolding equation of `findFull` on a non-empty word. -/
lemma findFull_cons (m : Grid) (findX findY x y : Int) (w0 : Char)
    (rest : List Char) (ch : Bool) :
    findFull m findX findY x y (w0 :: rest) ch =
      if x = (m.length : Int) ∨ y = (m.length : Int) ∨ intLor x y = -1 ∨
          cellD m x y ≠ w0 then 0
      else if rest.isEmpty then
        (if (ch || (findY == y && findX == x)) then 1 else 0)
      else
        findFull (setCell m x.toNat y.toNat '!') findX findY x (y - 1) rest
          (ch || (findY == y && findX == x)) +
        findFull (setCell m x.toNat y.toNat '!') findX findY x (y + 1) rest
          (ch || (findY == y && findX == x)) +
        findFull (setCell m x.toNat y.toNat '!') findX findY (x - 1) y rest
          (ch || (findY == y && findX == x)) +
        findFull (setCell m x.toNat y.toNat '!') findX findY (x + 1) y rest
          (ch || (findY == y && findX == x)) := by
  rw [findFull]

/-- The core characterisation of the path search: one `findFull` attempt
on the working copy of the grid `T` whose cells `V` are already marked
returns non-zero exactly when a marker-free word admits a
specification-side walk from `(x, y)` avoiding `V`.  The walk visits
`(findX, findY)` unless `checker` is already set. -/
lemma findFull_iff (T : Grid) (findX findY : Int) :
    ∀ (word : List Char), '!' ∉ word →
    ∀ (V : List (Int × Int)) (m : Grid),
      m.length = T.length →
      (∀ r ∈ m, r.length = m.length) →
      (∀ a b : Int, cellD m a b = if (a, b) ∈ V then '!' else cellD T a b) →
    ∀ (ch : Bool) (x y : Int),
      (findFull m findX findY x y word ch ≠ 0 ↔ FFSpec T findX findY V ch x y word) := by
  intro word
  induction word with
  | nil =>
    intro _ V m _ _ _ ch x y
    constructor
    · intro h
      exact absurd rfl h
    · rintro ⟨p, hf, -, -, -, hh, -⟩
      rw [List.forall₂_nil_right_iff] at hf
      subst hf
      simp at hh
  | cons w0 rest ih =>
    intro hw V m hlen hsm hcell ch x y
    have hw0 : w0 ≠ '!' := fun he => hw (he ▸ List.mem_cons_self w0 rest)
    have hwr : '!' ∉ rest := fun he => hw (List.mem_cons_of_mem w0 he)
    by_cases hg : x = (m.length : Int) ∨ y = (m.length : Int) ∨ intLor x y = -1 ∨
        cellD m x y ≠ w0
    · rw [show findFull m findX findY x y (w0 :: rest) ch = 0 by
        rw [findFull_cons]; exact if_pos hg]
      constructor
      · intro h; exact absurd rfl h
      · rintro ⟨p, hf, -, -, hmem, hh, -⟩
        rw [List.forall₂_cons_right_iff] at hf
        obtain ⟨c, p', hc, hf', rfl⟩ := hf
        simp only [List.head?_cons, Option.some.injEq] at hh
        subst hh
        have hing := hmem (x, y) (List.mem_cons_self _ _)
        obtain ⟨⟨hx0, hxlt, hy0, hylt⟩, hnv⟩ := hing
        have hcxy : cellD m x y = w0 := by
          rw [hcell x y, if_neg hnv]; exact hc
        rcases hg with hg | hg | hg | hg
        · rw [hlen] at hg; omega
        · rw [hlen] at hg; omega
        · exact (lor_ne_negOne hx0 hy0 hg).elim
        · exact (hg hcxy).elim
    · have hgneg := hg
      push_neg at hgneg
      obtain ⟨hx1, hy1, hlor, hcw⟩ := hgneg
      have hbnd : InGrid m.length (x, y) :=
        cellD_ne_marker_bounds hsm (by rw [hcw]; exact hw0)
      obtain ⟨hx0, hxlt, hy0, hylt⟩ := hbnd
      have hnv : (x, y) ∉ V := by
        intro hv
        have := hcell x y
        rw [if_pos hv, hcw] at this
        exact hw0 this
      have hcT : cellD T x y = w0 := by
        have := hcell x y
        rw [if_neg hnv] at this
        rw [← this, hcw]
      have hxn : x.toNat < m.length := (Int.toNat_lt hx0).mpr hxlt
      have hyn : y.toNat < m.length := (Int.toNat_lt hy0).mpr hylt
      have hxc : ((x.toNat : Nat) : Int) = x := Int.toNat_of_nonneg hx0
      have hyc : ((y.toNat : Nat) : Int) = y := Int.toNat_of_nonneg hy0
      set m2 := setCell m x.toNat y.toNat '!' with hm2
      have hlen2 : m2.length = T.length := by rw [hm2, length_setCell, hlen]
      have hsm2 : ∀ r ∈ m2, r.length = m2.length := shape_setCell hsm _ _ _
      have hrowlen : (m.getD x.toNat []).length = m.length := by
        rw [List.getD_eq_getElem m [] hxn]
        exact hsm _ (List.getElem_mem hxn)
      have hcell2 : ∀ a b : Int,
          cellD m2 a b = if (a, b) ∈ (x, y) :: V then '!' else cellD T a b := by
        intro a b
        by_cases hab : a = x ∧ b = y
        · obtain ⟨rfl, rfl⟩ := hab
          rw [if_pos (List.mem_cons_self _ _), hm2]
          have := cellD_setCell_self hxn (by rw [hrowlen]; exact hyn) '!'
          rwa [hxc, hyc] at this
        · have hne : (a, b) ≠ (x, y) := by
            intro hc
            exact hab ⟨congrArg Prod.fst hc, congrArg Prod.snd hc⟩
          have h1 : cellD m2 a b = cellD m a b := by
            rw [hm2]
            exact cellD_setCell_ne (by rw [hxc, hyc]; exact hab) '!'
          rw [h1, hcell a b]
          by_cases hv : (a, b) ∈ V
          · rw [if_pos hv, if_pos (List.mem_cons_of_mem _ hv)]
          · rw [if_neg hv, if_neg (by
              rw [List.mem_cons]
              rintro (hc | hc)
              · exact hne hc
              · exact hv hc)]
      have hingT : InGrid T.length (x, y) :=
        ⟨hx0, hlen ▸ hxlt, hy0, hlen ▸ hylt⟩
      have hchiff : (ch || (findY == y && findX == x)) = true ↔
          ch = true ∨ (findX = x ∧ findY = y) := by
        simp only [Bool.or_eq_true, Bool.and_eq_true, beq_iff_eq]
        constructor
        · rintro (h | ⟨h1, h2⟩)
          · exact Or.inl h
          · exact Or.inr ⟨h2, h1⟩
        · rintro (h | ⟨h1, h2⟩)
          · exact Or.inl h
          · exact Or.inr ⟨h2, h1⟩
      cases rest with
      | nil =>
        rw [findFull_cons, if_neg hg]
        simp only [List.isEmpty_nil, if_true]
        constructor
        · intro h
          have hb : (ch || (findY == y && findX == x)) = true := by
            by_contra hb
            rw [if_neg hb] at h
            exact h rfl
          refine ⟨[(x, y)], ?_, ?_, ?_, ?_, ?_, ?_⟩
          · exact List.forall₂_cons.mpr ⟨hcT, List.Forall₂.nil⟩
          · exact List.chain'_singleton _
          · exact List.nodup_singleton _
          · intro c hc
            rw [List.mem_singleton] at hc
            subst hc
            exact ⟨hingT, hnv⟩
          · rfl
          · rcases hchiff.mp hb with h1 | ⟨h1, h2⟩
            · exact Or.inl h1
            · exact Or.inr (by rw [h1, h2]; exact List.mem_singleton_self _)
        · rintro ⟨p, hf, -, -, -, hh, hvis⟩
          rw [List.forall₂_cons_right_iff] at hf
          obtain ⟨c, p', -, hf', rfl⟩ := hf
          rw [List.forall₂_nil_right_iff] at hf'
          subst hf'
          simp only [List.head?_cons, Option.some.injEq] at hh
          subst hh
          have hb : (ch || (findY == y && findX == x)) = true := by
            apply hchiff.mpr
            rcases hvis with h1 | h1
            · exact Or.inl h1
            · rw [List.mem_singleton] at h1
              exact Or.inr ⟨congrArg Prod.fst h1, congrArg Prod.snd h1⟩
          rw [if_pos hb]
          exact one_ne_zero
      | cons r0 rs =>
        rw [findFull_cons, if_neg hg]
        simp only [List.isEmpty_cons, Bool.false_eq_true, if_false]
        rw [← hm2]
        have ih1 := ih hwr ((x, y) :: V) m2 hlen2 hsm2 hcell2
          (ch || (findY == y && findX == x)) x (y - 1)
        have ih2 := ih hwr ((x, y) :: V) m2 hlen2 hsm2 hcell2
          (ch || (findY == y && findX == x)) x (y + 1)
        have ih3 := ih hwr ((x, y) :: V) m2 hlen2 hsm2 hcell2
          (ch || (findY == y && findX == x)) (x - 1) y
        have ih4 := ih hwr ((x, y) :: V) m2 hlen2 hsm2 hcell2
          (ch || (findY == y && findX == x)) (x + 1) y
        have build : ∀ nb : Int × Int, Adjacent (x, y) nb →
            FFSpec T findX findY ((x, y) :: V)
              (ch || (findY == y && findX == x)) nb.1 nb.2 (r0 :: rs) →
            FFSpec T findX findY V ch x y (w0 :: r0 :: rs) := by
          rintro nb hadj ⟨p', hf', hch', hnd', hm', hh', hv'⟩
          refine ⟨(x, y) :: p', ?_, ?_, ?_, ?_, ?_, ?_⟩
          · exact List.forall₂_cons.mpr ⟨hcT, hf'⟩
          · rw [List.chain'_cons']
            refine ⟨?_, hch'⟩
            intro z hz
            rw [hh'] at hz
            rw [Option.mem_some_iff] at hz
            subst hz
            exact hadj
          · rw [List.nodup_cons]
            exact ⟨fun hxp => (hm' _ hxp).2 (List.mem_cons_self _ _), hnd'⟩
          · intro c hc
            rcases List.mem_cons.mp hc with rfl | hc'
            · exact ⟨hingT, hnv⟩
            · obtain ⟨hig, hnv'⟩ := hm' c hc'
              exact ⟨hig, fun hcv => hnv' (List.mem_cons_of_mem _ hcv)⟩
          · rfl
          · rcases hv' with hch2' | hvis
            · rcases hchiff.mp hch2' with hcht | ⟨hfx, hfy⟩
              · exact Or.inl hcht
              · exact Or.inr (by rw [hfx, hfy]; exact List.mem_cons_self _ _)
            · exact Or.inr (List.mem_cons_of_mem _ hvis)
        constructor
        · intro hne0
          have h4 : findFull m2 findX findY x (y - 1) (r0 :: rs)
                (ch || (findY == y && findX == x)) ≠ 0 ∨
              findFull m2 findX findY x (y + 1) (r0 :: rs)
                (ch || (findY == y && findX == x)) ≠ 0 ∨
              findFull m2 findX findY (x - 1) y (r0 :: rs)
                (ch || (findY == y && findX == x)) ≠ 0 ∨
              findFull m2 findX findY (x + 1) y (r0 :: rs)
                (ch || (findY == y && findX == x)) ≠ 0 := by
            omega
          rcases h4 with h | h | h | h
          · exact build _ (adjacent_left x y) (ih1.mp h)
          · exact build _ (adjacent_right x y) (ih2.mp h)
          · exact build _ (adjacent_up x y) (ih3.mp h)
          · exact build _ (adjacent_down x y) (ih4.mp h)
        · rintro ⟨p, hf, hchain, hnd, hmem, hh, hv⟩
          rw [List.forall₂_cons_right_iff] at hf
          obtain ⟨c, p', hc0, hf', rfl⟩ := hf
          simp only [List.head?_cons, Option.some.injEq] at hh
          subst hh
          cases p' with
          | nil =>
            rw [show List.Forall₂ (fun c l => cellD T c.1 c.2 = l)
              ([] : List (Int × Int)) (r0 :: rs) ↔ False by
                simp [List.forall₂_nil_left_iff]] at hf'
            exact hf'.elim
          | cons c1 p'' =>
            rw [List.chain'_cons'] at hchain
            obtain ⟨hadj, hch'⟩ := hchain
            have hadjc : Adjacent (x, y) c1 := hadj c1 rfl
            rw [List.nodup_cons] at hnd
            obtain ⟨hxp', hnd'⟩ := hnd
            have hmem' : ∀ z ∈ c1 :: p'', InGrid T.length z ∧ z ∉ (x, y) :: V := by
              intro z hz
              obtain ⟨hig, hznv⟩ := hmem z (List.mem_cons_of_mem _ hz)
              refine ⟨hig, ?_⟩
              rw [List.mem_cons]
              rintro (rfl | hzv)
              · exact hxp' hz
              · exact hznv hzv
            have hv2 : (ch || (findY == y && findX == x)) = true ∨
                (findX, findY) ∈ c1 :: p'' := by
              rcases hv with hcht | hvp
              · exact Or.inl (hchiff.mpr (Or.inl hcht))
              · rcases List.mem_cons.mp hvp with heq | hvp'
                · exact Or.inl (hchiff.mpr (Or.inr
                    ⟨congrArg Prod.fst heq, congrArg Prod.snd heq⟩))
                · exact Or.inr hvp'
            have hspec' : FFSpec T findX findY ((x, y) :: V)
                (ch || (findY == y && findX == x)) c1.1 c1.2 (r0 :: rs) :=
              ⟨c1 :: p'', hf', hch', hnd', hmem', rfl, hv2⟩
            rcases adjacent_cases hadjc with h | h | h | h
            · subst h
              have := ih1.mpr hspec'
              omega
            · subst h
              have := ih2.mpr hspec'
              omega
            · subst h
              have := ih3.mpr hspec'
              omega
            · subst h
              have := ih4.mpr hspec'
              omega

/-- The double loop of `CheckWord` succeeds exactly when some cell starts
a specification-side walk for the word that visits the new cell. -/
lemma search_iff (area : Square) (hsq : ∀ r ∈ area.matrix, r.length = area.matrix.length)
    (x y : Nat) (symbol : Char) (w0 : Char) (rest : List Char)
    (hmark : '!' ∉ w0 :: rest) :
    ((List.range area.matrix.length).any (fun i =>
        (List.range ((area.matrix.getD i []).length)).any (fun j =>
          cellD (setCell area.matrix x y symbol) i j == w0 &&
            findFull (setCell area.matrix x y symbol) x y i j (w0 :: rest) false != 0)) = true)
    ↔ ∃ p, SpellsWord (setCell area.matrix x y symbol) (w0 :: rest) p ∧
        ((x : Int), (y : Int)) ∈ p := by
  set temp := setCell area.matrix x y symbol with htemp
  have hlenT : temp.length = area.matrix.length := length_setCell _ _ _ _
  have hsT : ∀ r ∈ temp, r.length = temp.length := shape_setCell hsq _ _ _
  have hcell0 : ∀ a b : Int,
      cellD temp a b = if (a, b) ∈ ([] : List (Int × Int)) then '!' else cellD temp a b := by
    intro a b
    rw [if_neg (List.not_mem_nil _)]
  constructor
  · intro hany
    rw [List.any_eq_true] at hany
    obtain ⟨i, hi, hj⟩ := hany
    rw [List.mem_range] at hi
    rw [List.any_eq_true] at hj
    obtain ⟨j, hjr, hb⟩ := hj
    rw [Bool.and_eq_true] at hb
    obtain ⟨-, h2⟩ := hb
    rw [bne_iff_ne] at h2
    have hspec := (findFull_iff temp x y (w0 :: rest) hmark [] temp rfl hsT hcell0
      false i j).mp h2
    obtain ⟨p, hf, hch, hnd, hmem, -, hvis⟩ := hspec
    refine ⟨p, ⟨hf, hch, hnd, fun c hc => (hmem c hc).1⟩, ?_⟩
    rcases hvis with hvis | hvis
    · exact absurd hvis (by simp)
    · exact hvis
  · rintro ⟨p, ⟨hf, hch, hnd, hmem⟩, hvismem⟩
    have hfc := hf
    rw [List.forall₂_cons_right_iff] at hfc
    obtain ⟨c, p', hc0, hf', rfl⟩ := hfc
    have hcig : InGrid temp.length c := hmem c (List.mem_cons_self _ _)
    obtain ⟨hc10, hc1lt, hc20, hc2lt⟩ := hcig
    have h1 : ((c.1.toNat : Nat) : Int) = c.1 := Int.toNat_of_nonneg hc10
    have h2 : ((c.2.toNat : Nat) : Int) = c.2 := Int.toNat_of_nonneg hc20
    have hilt : c.1.toNat < area.matrix.length := by
      rw [← hlenT]
      exact (Int.toNat_lt hc10).mpr hc1lt
    have hjlt : c.2.toNat < area.matrix.length := by
      rw [← hlenT]
      exact (Int.toNat_lt hc20).mpr hc2lt
    have hne0 : findFull temp x y c.1.toNat c.2.toNat (w0 :: rest) false ≠ 0 := by
      apply (findFull_iff temp x y (w0 :: rest) hmark [] temp rfl hsT hcell0
        false c.1.toNat c.2.toNat).mpr
      refine ⟨c :: p', hf, hch, hnd,
        fun z hz => ⟨hmem z hz, List.not_mem_nil z⟩, ?_, Or.inr hvismem⟩
      rw [List.head?_cons, h1, h2]
    rw [List.any_eq_true]
    refine ⟨c.1.toNat, List.mem_range.mpr hilt, ?_⟩
    rw [List.any_eq_true]
    refine ⟨c.2.toNat, ?_, ?_⟩
    · rw [List.mem_range, List.getD_eq_getElem _ _ hilt,
        hsq _ (List.getElem_mem hilt)]
      exact hjlt
    · rw [Bool.and_eq_true, beq_iff_eq, bne_iff_ne]
      constructor
      · rw [h1, h2]
        exact hc0
      · exact hne0

/-- C1: for every board state, empty target cell `(x, y)`, letter, and
candidate word that passes the three rejection checks (case-normalized
word unused, cell empty, word in the dictionary — and containing no `'!'`
marker, as no dictionary word does), `CheckWord` returns true exactly
when in the trial grid (the current grid with the letter written at the
target cell) some starting cell begins a walk of exactly the word's
length — `SpellsWord` forces one cell per character — moving only between
orthogonally adjacent cells, never revisiting a cell, spelling the word,
and visiting `(x, y)`; on true it persists the trial grid and appends the
normalized word to `usedWords`, and on false it leaves the square (grid
and `usedWords`) unchanged. -/
theorem C1_CheckWord_validates_path
    (dict : List String) (area : Square)
    (hsq : ∀ r ∈ area.matrix, r.length = area.matrix.length)
    (x y : Nat) (symbol : Char) (word : List Char)
    (hne : word ≠ [])
    (hmark : '!' ∉ word.map runeToLower)
    (hused : wordAlreadyUsed area (word.map runeToLower) = false)
    (hempty : cellD area.matrix x y = '-')
    (hdict : dict.contains (String.mk (word.map runeToLower)) = true) :
    (CheckWord dict area x y symbol word =
        some (true, ⟨setCell area.matrix x y symbol,
          area.usedWords ++ [String.mk (word.map runeToLower)]⟩)
      ↔ ∃ p, SpellsWord (setCell area.matrix x y symbol) (word.map runeToLower) p ∧
          ((x : Int), (y : Int)) ∈ p) ∧
    ((¬ ∃ p, SpellsWord (setCell area.matrix x y symbol) (word.map runeToLower) p ∧
          ((x : Int), (y : Int)) ∈ p) →
      CheckWord dict area x y symbol word = some (false, area)) := by
  obtain ⟨w0, rest, hmap⟩ : ∃ w0 rest, word.map runeToLower = w0 :: rest := by
    cases hm : word.map runeToLower with
    | nil =>
      rw [List.map_eq_nil_iff] at hm
      exact absurd hm hne
    | cons a l => exact ⟨a, l, rfl⟩
  rw [hmap] at hmark hused hdict ⊢
  have hcond : ¬(wordAlreadyUsed area (w0 :: rest) = true ∨
      cellD area.matrix x y ≠ '-' ∨
      ¬ dict.contains (String.mk (w0 :: rest)) = true) := by
    push_neg
    refine ⟨?_, hempty, hdict⟩
    rw [hused]
    exact Bool.false_ne_true
  have hsi := search_iff area hsq x y symbol w0 rest hmark
  have htrue : ((List.range area.matrix.length).any (fun i =>
      (List.range ((area.matrix.getD i []).length)).any (fun j =>
        cellD (setCell area.matrix x y symbol) i j == w0 &&
          findFull (setCell area.matrix x y symbol) x y i j (w0 :: rest) false != 0)) = true) →
      CheckWord dict area x y symbol word =
        some (true, ⟨setCell area.matrix x y symbol,
          area.usedWords ++ [String.mk (w0 :: rest)]⟩) := by
    intro hs
    simp only [CheckWord, hmap]
    rw [if_neg hcond, if_pos hs]
  have hfalse : ((List.range area.matrix.length).any (fun i =>
      (List.range ((area.matrix.getD i []).length)).any (fun j =>
        cellD (setCell area.matrix x y symbol) i j == w0 &&
          findFull (setCell area.matrix x y symbol) x y i j (w0 :: rest) false != 0)) = false) →
      CheckWord dict area x y symbol word = some (false, area) := by
    intro hs
    simp only [CheckWord, hmap]
    rw [if_neg hcond, if_neg (by rw [hs]; exact Bool.false_ne_true)]
  constructor
  · constructor
    · intro hcw
      by_cases hs : (List.range area.matrix.length).any (fun i =>
          (List.range ((area.matrix.getD i []).length)).any (fun j =>
            cellD (setCell area.matrix x y symbol) i j == w0 &&
              findFull (setCell area.matrix x y symbol) x y i j (w0 :: rest) false != 0)) = true
      · exact hsi.mp hs
      · rw [Bool.not_eq_true] at hs
        rw [hfalse hs] at hcw
        simp at hcw
    · intro hp
      exact htrue (hsi.mpr hp)
  · intro hnp
    have hs : (List.range area.matrix.length).any (fun i =>
        (List.range ((area.matrix.getD i []).length)).any (fun j =>
          cellD (setCell area.matrix x y symbol) i j == w0 &&
            findFull (setCell area.matrix x y symbol) x y i j (w0 :: rest) false != 0)) = false := by
      by_contra h
      rw [Bool.not_eq_false] at h
      exact hnp (hsi.mp h)
    exact hfalse hs

/-- Witness for C1: on a 2×2 board holding `a` at `(0,0)`, placing `b` at
`(0,1)` with candidate word `ab` is accepted, because the walk
`(0,0), (0,1)` spells the word through the new cell. -/
theorem C1_CheckWord_validates_path_witness :
    CheckWord ["ab"] ⟨[['a', '-'], ['-', '-']], []⟩ 0 1 'b' ['a', 'b'] =
      some (true, ⟨setCell [['a', '-'], ['-', '-']] 0 1 'b',
        [] ++ [String.mk (['a', 'b'].map runeToLower)]⟩) := by
  have h := (C1_CheckWord_validates_path ["ab"] ⟨[['a', '-'], ['-', '-']], []⟩
    (by decide) 0 1 'b' ['a', 'b'] (by decide) (by decide) (by decide) (by decide)
    (by decide)).1.mpr
  apply h
  refine ⟨[((0 : Int), (0 : Int)), ((0 : Int), (1 : Int))], ⟨?_, ?_, ?_, ?_⟩, ?_⟩
  · exact List.Forall₂.cons (by decide) (List.Forall₂.cons (by decide) List.Forall₂.nil)
  · exact List.chain'_pair.mpr (by simp [Adjacent])
  · decide
  · simp [InGrid, setCell]
  · decide

/-- C2: whenever the case-normalized candidate word is already in
`usedWords`, or the target cell is not the empty sentinel `'-'`, or the
word is not in the dictionary, `CheckWord` returns false before any path
search and leaves the square (grid and `usedWords`) unchanged — in
particular a used word is rejected regardless of any geometric path. -/
theorem C2_rejection_checks_frame
    (dict : List String) (area : Square) (x y : Nat) (symbol : Char) (word : List Char)
    (h : wordAlreadyUsed area (word.map runeToLower) = true ∨
        cellD area.matrix x y ≠ '-' ∨
        dict.contains (String.mk (word.map runeToLower)) = false) :
    CheckWord dict area x y symbol word = some (false, area) := by
  have h' : wordAlreadyUsed area (word.map runeToLower) = true ∨
      cellD area.matrix x y ≠ '-' ∨
      ¬ dict.contains (String.mk (word.map runeToLower)) = true := by
    rcases h with h | h | h
    · exact Or.inl h
    · exact Or.inr (Or.inl h)
    · exact Or.inr (Or.inr (by rw [h]; exact Bool.false_ne_true))
  simp only [CheckWord]
  rw [if_pos h']

/-- Witness for C2: the word `ab` admits a geometrically valid path
through the empty cell `(0,1)` (first conjunct, the same board accepts it
when unused), yet with `ab` already in `usedWords` the call is rejected
and the square is unchanged (second conjunct, by the C2 theorem). -/
theorem C2_rejection_checks_frame_witness :
    CheckWord ["ab"] ⟨[['a', '-'], ['-', '-']], []⟩ 0 1 'b' ['a', 'b'] =
      some (true, ⟨[['a', 'b'], ['-', '-']], ["ab"]⟩) ∧
    CheckWord ["ab"] ⟨[['a', '-'], ['-', '-']], ["ab"]⟩ 0 1 'b' ['a', 'b'] =
      some (false, ⟨[['a', '-'], ['-', '-']], ["ab"]⟩) :=
  ⟨by decide,
   C2_rejection_checks_frame ["ab"] ⟨[['a', '-'], ['-', '-']], ["ab"]⟩ 0 1 'b' ['a', 'b']
     (Or.inl (by decide))⟩

lemma winnerStep_snd_empty (hs : Nat) (p : String × Nat) :
    ∃ s, winnerStep (hs, "") p = (s, "") := by
  unfold winnerStep
  by_cases h1 : p.2 > hs
  · rw [if_pos h1]
    exact ⟨p.2, by rw [if_pos rfl]⟩
  · rw [if_neg h1]
    by_cases h2 : p.2 = hs
    · exact ⟨hs, by rw [if_pos h2]⟩
    · exact ⟨hs, by rw [if_neg h2]⟩

lemma winnerFold_snd_empty (l : List (String × Nat)) :
    ∀ hs : Nat, (l.foldl winnerStep (hs, "")).2 = "" := by
  induction l with
  | nil => intro hs; rfl
  | cons p rest ih =>
    intro hs
    rw [List.foldl_cons]
    obtain ⟨s, hstep⟩ := winnerStep_snd_empty hs p
    rw [hstep]
    exact ih s

/-- The winner loop clears the holder right after setting it (the two
`if`s of the source are not chained with `else`), so it yields the empty
holder on every input. -/
lemma winnerCalc_empty (score : List (String × Nat)) : winnerCalc score = "" :=
  winnerFold_snd_empty score 0

/-- C3: the claim says a unique strictly greatest score yields that
player as sole winner; the code disagrees — because `sc == hs` is checked
right after `sc > hs` updated `hs`, the holder is cleared on the very
iteration that set it, and the winner computation returns the empty
holder even for the unique maximum 5 held by `"A"` (and on every other
input, by `winnerCalc_empty`). -/
theorem C3_unique_max_still_no_winner :
    5 > 3 ∧ 5 > 1 ∧
    winnerCalc [("A", 5), ("B", 3), ("C", 1)] = "" ∧
    winnerCalc [("A", 5), ("B", 3), ("C", 1)] ≠ "A" := by
  refine ⟨by decide, by decide, winnerCalc_empty _, ?_⟩
  rw [winnerCalc_empty]
  decide

/-- C4: the claim (and the spec) credit the acting, still-current player
before `turnIndex` advances.  In `game.go` (package `game`) the source
advances `game.step` first and then credits `game.users[game.step]`: on
the accepted two-rune word `аб` submitted by `"A"` (the current player,
`whoStep C4game = "A"`), `"A"` keeps 0 and `"B"` receives the 2 points.
The sibling variant (`P4.word`) credits `"A"` with 2 on the same input,
matching the claim. -/
theorem C4_wrong_player_credited :
    whoStep C4game = "A" ∧
    ((Game.word ["аб"] C4game "аб").map
      (fun r => (mapGet r.2.score "A", mapGet r.2.score "B", r.2.step)) =
      some (0, 2, 1)) ∧
    ((P4.word ["аб"] C4game "аб").map
      (fun r => (mapGet r.2.score "A", mapGet r.2.score "B", r.2.step)) =
      some (2, 0, 1)) := by
  refine ⟨by decide, by decide, by decide⟩

/-- C5 (counterexample): the claim says every successful accepted move
clears the skip counter to 0; on the accepted move of `C4game` (skip
counter 1) the counter is still 1 afterwards. -/
theorem C5_move_does_not_clear_skips :
    Game.word ["аб"] C4game "аб" = some C5res ∧
    C5res.2.skipped = 1 ∧ (1 : Nat) ≠ 0 := by
  refine ⟨by decide, by decide, by decide⟩

lemma skip_increments_skipped (g : Game) :
    ((Game.skip g).2).skipped = g.skipped + 1 := by
  by_cases h : g.skipped + 1 = g.users.length
  · simp only [Game.skip, h, if_pos]
    rfl
  · simp only [Game.skip]
    rw [if_neg (by exact h)]

/-- C5 (amended): the skip counter is never reset at all — a skip
increments it by one and a successful accepted move leaves it unchanged,
so it is cumulative across the whole game. -/
theorem C5_skip_counter_never_reset :
    (∀ (dict : List String) (g : Game) (str : String) (r : (Bool × String) × Game),
      Game.word dict g str = some r → r.2.skipped = g.skipped) ∧
    (∀ g : Game, ((Game.skip g).2).skipped = g.skipped + 1) := by
  constructor
  · intro dict g str r h
    simp only [Game.word] at h
    rcases hcw : CheckWord dict g.square g.putting.y g.putting.x g.putting.sym str.data with
        - | ⟨ok, sq⟩
    · rw [hcw] at h
      exact absurd h (by simp)
    · rw [hcw] at h
      by_cases hok : ok = true

      · rw [hok] at h
        simp only [if_true] at h
        by_cases hfull : IsFull sq = true
        · rw [if_pos hfull] at h
          obtain rfl := (Option.some.injEq _ _).mp h
          rfl
        · rw [if_neg hfull] at h
          obtain rfl := (Option.some.injEq _ _).mp h
          rfl
      · rw [Bool.not_eq_true] at hok
        rw [hok] at h
        simp only [Bool.false_eq_true, if_false] at h
        obtain rfl := (Option.some.injEq _ _).mp h
        rfl
  · exact skip_increments_skipped

/-- Witness for C5 (amended): the accepted move of `C4game` keeps the
counter at its old value, and a skip from the same state increments it. -/
theorem C5_skip_counter_never_reset_witness :
    C5res.2.skipped = C4game.skipped ∧
    ((Game.skip C4game).2).skipped = C4game.skipped + 1 :=
  ⟨C5_skip_counter_never_reset.1 ["аб"] C4game "аб" C5res (by decide),
   C5_skip_counter_never_reset.2 C4game⟩

/-- C6: each `skip` from the current player increments the counter by
one; exactly when it reaches the player count the game finishes (onStart
cleared, no-winner message, `keepPlaying = false`); otherwise the turn
index advances by one modulo the roster size and the reply is the skip
acknowledgement. -/
theorem C6_skip_semantics (g : Game)
    (hstep : g.step < g.users.length) :
    ((Game.skip g).2).skipped = g.skipped + 1 ∧
    (g.skipped + 1 = g.users.length →
      (Game.skip g).1.1 = false ∧
      (Game.skip g).1.2 = "Game over. No winner. All users skipped." ∧
      ((Game.skip g).2).onStart = false ∧
      ((Game.skip g).2).step = g.step) ∧
    (g.skipped + 1 ≠ g.users.length →
      (Game.skip g).1.1 = true ∧
      (Game.skip g).1.2 = "You skipped" ∧
      ((Game.skip g).2).step = (g.step + 1) % g.users.length ∧
      ((Game.skip g).2).onStart = g.onStart) := by
  refine ⟨skip_increments_skipped g, ?_, ?_⟩
  · intro h
    simp only [Game.skip]
    rw [if_pos (by exact h)]
    exact ⟨rfl, rfl, rfl, rfl⟩
  · intro h
    simp only [Game.skip]
    rw [if_neg (by exact h)]
    refine ⟨rfl, rfl, ?_, rfl⟩
    show (if g.step + 1 = g.users.length then 0 else g.step + 1) = (g.step + 1) % g.users.length
    by_cases h2 : g.step + 1 = g.users.length
    · rw [if_pos h2, h2, Nat.mod_self]
    · rw [if_neg h2, Nat.mod_eq_of_lt (by omega)]

/-- Witness for C6: in the two-player state `C7g0` a skip increments the
counter to 1 and advances the turn to index 1 = (0 + 1) % 2. -/
theorem C6_skip_semantics_witness :
    C7g0.step < C7g0.users.length ∧
    ((Game.skip C7g0).2).skipped = C7g0.skipped + 1 ∧
    ((Game.skip C7g0).2).step = (C7g0.step + 1) % C7g0.users.length :=
  ⟨by decide, (C6_skip_semantics C7g0 (by decide)).1,
   ((C6_skip_semantics C7g0 (by decide)).2.2 (by decide)).2.2.1⟩

/-- C7 (counterexample): the claim says no sequence of commands can leave
a pending move begun by one player to be advanced by a different player.
But `skip` does not clear `onPut`: `"A"` begins a put (`C7g1`, sub-state
`coordX`), `"A"` skips (the turn passes to `"B"` with the pending move
still set), and then the input `0` from `"B"` advances the very sub-state `"A"`
began (to `coordY`). -/
theorem C7_pending_put_crosses_players :
    Game.Continue C7g0 "put" "A" = some ((true, "Please, enter X coordinate"), C7g1) ∧
    C7g1.onPut = true ∧ C7g1.putting.state = "coordX" ∧
    Game.Continue C7g1 "skip" "A" = some ((true, "You skipped"), C7g2) ∧
    C7g2.onPut = true ∧ C7g2.putting.state = "coordX" ∧
    C7g2.users.getD C7g2.step "" = "B" ∧
    Game.Continue C7g2 "0" "B" = some ((true, "Please, enter Y coordinate"), C7g3) ∧
    C7g3.putting.state = "coordY" ∧ C7g3.onPut = true ∧
    ("B" : String) ≠ "A" := by
  decide

/-- C7 (amended): at any moment only the current player
(`users[step mod len]`) can advance the pending put sub-state — any other
command from any other player leaves `putting` and `onPut` unchanged — and a skip
never clears the pending sub-state, which is why a pending move begun by
one player can be advanced by the next player after a skip. -/
theorem C7_only_current_player_advances_pending :
    (∀ (g : Game) (str user : String) (r : (Bool × String) × Game),
      user ≠ g.users.getD (g.step % g.users.length) "" →
      Game.Continue g str user = some r →
      r.2.putting = g.putting ∧ r.2.onPut = g.onPut) ∧
    (∀ g : Game, ((Game.skip g).2).putting = g.putting ∧
      ((Game.skip g).2).onPut = g.onPut) := by
  constructor
  · intro g str user r huser h
    simp only [Game.Continue] at h
    by_cases h0 : g.onStart = false
    · rw [if_pos h0] at h
      obtain rfl := (Option.some.injEq _ _).mp h
      exact ⟨rfl, rfl⟩
    · rw [if_neg h0] at h
      by_cases h1 : str = "area"
      · rw [if_pos h1] at h
        obtain rfl := (Option.some.injEq _ _).mp h
        exact ⟨rfl, rfl⟩
      · rw [if_neg h1] at h
        by_cases h2 : str = "words"
        · rw [if_pos h2] at h
          obtain rfl := (Option.some.injEq _ _).mp h
          exact ⟨rfl, rfl⟩
        · rw [if_neg h2] at h
          by_cases h3 : str = "step"
          · rw [if_pos h3] at h
            obtain rfl := (Option.some.injEq _ _).mp h
            exact ⟨rfl, rfl⟩
          · rw [if_neg h3] at h
            by_cases h4 : str = "score"
            · rw [if_pos h4] at h
              obtain rfl := (Option.some.injEq _ _).mp h
              exact ⟨rfl, rfl⟩
            · rw [if_neg h4] at h
              by_cases h5 : g.users.length = 0
              · rw [if_pos h5] at h
                exact absurd h (by simp)
              · rw [if_neg h5] at h
                by_cases h6 : g.users.length ≤ g.step
                · rw [if_pos h6] at h
                  rw [if_pos (by
                    show user ≠ _
                    exact huser)] at h
                  obtain rfl := (Option.some.injEq _ _).mp h
                  exact ⟨rfl, rfl⟩
                · rw [if_neg h6] at h
                  rw [if_pos (by
                    show user ≠ g.users.getD g.step ""
                    rwa [Nat.mod_eq_of_lt (by omega)] at huser)] at h
                  obtain rfl := (Option.some.injEq _ _).mp h
                  exact ⟨rfl, rfl⟩
  · intro g
    by_cases h : g.skipped + 1 = g.users.length
    · simp only [Game.skip]
      rw [if_pos (by exact h)]
      exact ⟨rfl, rfl⟩
    · simp only [Game.skip]
      rw [if_neg (by exact h)]
      exact ⟨rfl, rfl⟩

/-- Witness for C7 (amended): `"B"` is not the current player of `C7g0`,
and an off-turn `put` from `"B"` leaves the pending sub-state untouched. -/
theorem C7_only_current_player_advances_pending_witness :
    ("B" : String) ≠ C7g0.users.getD (C7g0.step % C7g0.users.length) "" ∧
    C7w.2.putting = C7g0.putting ∧ C7w.2.onPut = C7g0.onPut :=
  ⟨by decide,
   (C7_only_current_player_advances_pending.1 C7g0 "put" "B" C7w (by decide) (by decide)).1,
   (C7_only_current_player_advances_pending.1 C7g0 "put" "B" C7w (by decide) (by decide)).2⟩

/-- C8: in an in-progress game (with the turn index in range, as every
reachable state has), any command other than the four informational ones,
submitted by a player who is not `users[step]`, is answered with the
not-your-turn message and changes nothing: the state returned is exactly
the input state. -/
theorem C8_off_turn_commands_rejected_without_change
    (g : Game) (str user : String)
    (hstart : g.onStart = true)
    (hstep : g.step < g.users.length)
    (h1 : str ≠ "area") (h2 : str ≠ "words") (h3 : str ≠ "step") (h4 : str ≠ "score")
    (huser : user ≠ g.users.getD g.step "") :
    Game.Continue g str user =
      some ((true, "Not your step is now or not correct command."), g) := by
  simp only [Game.Continue]
  rw [if_neg (by rw [hstart]; decide), if_neg h1, if_neg h2,
    if_neg h3, if_neg h4, if_neg (by omega : ¬ g.users.length = 0),
    if_neg (by omega : ¬ g.users.length ≤ g.step), if_pos huser]

/-- Witness for C8: an off-turn `"help"` command from `"B"` in `C7g0` is
rejected with the not-your-turn reply and the state is unchanged. -/
theorem C8_off_turn_commands_rejected_without_change_witness :
    C7g0.onStart = true ∧ C7g0.step < C7g0.users.length ∧
    ("B" : String) ≠ C7g0.users.getD C7g0.step "" ∧
    Game.Continue C7g0 "help" "B" =
      some ((true, "Not your step is now or not correct command."), C7g0) :=
  ⟨by decide, by decide, by decide,
   C8_off_turn_commands_rejected_without_change C7g0 "help" "B" (by decide) (by decide)
     (by decide) (by decide) (by decide) (by decide) (by decide)⟩

/-- C9: while a game is in progress, the informational commands `area`,
`words`, `step` (whose turn), `score` and `help`, and the well-formed
statistics queries, are accepted from any player — no turn check is
reached — and each returns its text reply with the game state returned
exactly unchanged.  The first nine conjuncts are about the `Continue`
variant that dispatches `help` and the statistics queries; the last four
show the four common informational commands behave the same way in the
other variant. -/
theorem C9_informational_commands_from_any_player
    (stats : StatOracle) (dict : List String) (g : Game) (user : String)
    (hstart : g.onStart = true) :
    P4.Continue stats dict g "area" user = some ((true, StrPrintArea g.square.matrix), g) ∧
    P4.Continue stats dict g "words" user = some ((true, StrPrintUsedWords g.square), g) ∧
    P4.Continue stats dict g "step" user = some ((true, whoStep g), g) ∧
    P4.Continue stats dict g "score" user = some ((true, showScoreNR g.score), g) ∧
    P4.Continue stats dict g "help" user = some ((true, helpString), g) ∧
    (∀ str mode lim n, splitSpace str = ["stat_topusers", mode, lim] →
      atoi lim = some n → (mode = "score" ∨ mode = "games" ∨ mode = "wins") →
      P4.Continue stats dict g str user = some ((true, stats.topusers mode n 0), g)) ∧
    (∀ str lim n, splitSpace str = ["stat_topwords", lim] →
      atoi lim = some n →
      P4.Continue stats dict g str user = some ((true, stats.topwords n 0), g)) ∧
    (∀ str w lim n, splitSpace str = ["stat_wordtopusers", w, lim] →
      atoi lim = some n →
      P4.Continue stats dict g str user = some ((true, stats.wordtopusers w n 0), g)) ∧
    (∀ str u lim n, splitSpace str = ["stat_user", u, lim] →
      atoi lim = some n →
      P4.Continue stats dict g str user = some ((true, stats.userstat u n 0), g)) ∧
    Game.Continue g "area" user = some ((true, StrPrintArea g.square.matrix), g) ∧
    Game.Continue g "words" user = some ((true, StrPrintUsedWords g.square), g) ∧
    Game.Continue g "step" user = some ((true, whoStep g), g) ∧
    Game.Continue g "score" user = some ((true, showScore g.score), g) := by
  refine ⟨?_, ?_, ?_, ?_, ?_, ?_, ?_, ?_, ?_, ?_, ?_, ?_, ?_⟩
  · simp [P4.Continue, hstart, show splitSpace "area" = ["area"] from rfl]
  · simp [P4.Continue, hstart, show splitSpace "words" = ["words"] from rfl]
  · simp [P4.Continue, hstart, show splitSpace "step" = ["step"] from rfl]
  · simp [P4.Continue, hstart, show splitSpace "score" = ["score"] from rfl]
  · simp [P4.Continue, hstart, show splitSpace "help" = ["help"] from rfl]
  · intro str mode lim n hsplit hatoi hmode
    have hmode' : ¬ (mode ≠ "score" ∧ mode ≠ "games" ∧ mode ≠ "wins") := by
      rcases hmode with h | h | h <;> simp [h]
    simp [P4.Continue, hsplit, hatoi, hmode']
  · intro str lim n hsplit hatoi
    simp [P4.Continue, hsplit, hatoi]
  · intro str w lim n hsplit hatoi
    simp [P4.Continue, hsplit, hatoi]
  · intro str u lim n hsplit hatoi
    simp [P4.Continue, hsplit, hatoi]
  · simp [Game.Continue, hstart]
  · simp [Game.Continue, hstart]
  · simp [Game.Continue, hstart]
  · simp [Game.Continue, hstart]

/-- Witness for C9: in `C7g0` the off-turn player `"B"` gets the help
text and a statistics reply with the state unchanged. -/
theorem C9_informational_commands_from_any_player_witness :
    C7g0.onStart = true ∧
    P4.Continue constOracle [] C7g0 "help" "B" = some ((true, helpString), C7g0) ∧
    P4.Continue constOracle [] C7g0 "stat_topwords 5" "B" =
      some ((true, constOracle.topwords 5 0), C7g0) ∧
    Game.Continue C7g0 "area" "B" =
      some ((true, StrPrintArea C7g0.square.matrix), C7g0) :=
  ⟨rfl,
   (C9_informational_commands_from_any_player constOracle [] C7g0 "B"
     rfl).2.2.2.2.1,
   (C9_informational_commands_from_any_player constOracle [] C7g0 "B"
     rfl).2.2.2.2.2.2.1 "stat_topwords 5" "5" 5 (by decide) (by decide),
   (C9_informational_commands_from_any_player constOracle [] C7g0 "B"
     rfl).2.2.2.2.2.2.2.2.2.1⟩

/-- C10: once a game is started with an empty roster, every command
outside the four informational ones reaches `game.step % len(game.users)`
with `len(game.users) = 0` and panics (division by zero in Go) — the
embedding returns `none` there, so a total embedding of `Continue` needs
the started-roster-non-empty precondition. -/
theorem C10_started_empty_roster_panics
    (g : Game) (str user : String)
    (hstart : g.onStart = true)
    (husers : g.users = [])
    (h1 : str ≠ "area") (h2 : str ≠ "words") (h3 : str ≠ "step") (h4 : str ≠ "score") :
    Game.Continue g str user = none := by
  simp only [Game.Continue]
  rw [if_neg (by rw [hstart]; decide), if_neg h1, if_neg h2,
    if_neg h3, if_neg h4, if_pos (by rw [husers]; rfl)]

/-- Witness for C10: a `skip` in the started empty-roster state panics. -/
theorem C10_started_empty_roster_panics_witness :
    C10game.onStart = true ∧ C10game.users = [] ∧
    Game.Continue C10game "skip" "A" = none :=
  ⟨by decide, by decide,
   C10_started_empty_roster_panics C10game "skip" "A" (by decide) (by decide)
     (by decide) (by decide) (by decide) (by decide)⟩

end Balda
